import Mathlib

/-!
Shallow embedding of the BlueTalk reliable transport, D-Bus variant decoder
and D-Bus authentication handshake, together with proofs about the claims of
the specification.  Definitions are translated from the Go source
(`types.go`, `decode.go`, `auth.go`); bytes are modelled as `Nat` values
(always < 256 where the source stores them in `byte`/`uint8` fields), byte
strings as `List Nat`, Go maps as association lists, and Go channels of
capacity one as explicit records.  A Go `panic` is modelled by `Option`
(`none` = panic).
-/

/-- `bleMTU = 20` from the source constants. -/
def bleMTU : Nat := 20

/-- `headerSize = 4` from the source constants. -/
def headerSize : Nat := 4

/-- `payloadSize = bleMTU - headerSize = 16` from the source constants. -/
def payloadSize : Nat := bleMTU - headerSize

/-- The DATA packet type byte `0x01`. -/
def packetData : Nat := 1

/-- The ACK packet type byte `0x02`. -/
def packetAck : Nat := 2

/-- `2 * time.Minute` in nanoseconds, the reassembly reaping window. -/
def twoMinutes : Nat := 120000000000

/-- One reassembly entry: `rxMessage` from the source (`total`, the sparse
fragment vector, and the creation timestamp).  A `none` slot is a `nil`
fragment slice in Go. -/
structure RxMessage where
  total : Nat
  fragments : List (Option (List Nat))
  createdAt : Nat
deriving DecidableEq

/-- The reassembly map `map[uint8]*rxMessage`, as an association list. -/
abbrev RxMap := List (Nat × RxMessage)

/-- Go map lookup `t.reassembly[seq]`. -/
def rxLookup (m : RxMap) (k : Nat) : Option RxMessage :=
  (m.find? (fun p => p.1 == k)).map (fun p => p.2)

/-- Go map assignment `t.reassembly[seq] = msg` (replace or append). -/
def rxInsert (m : RxMap) (k : Nat) (v : RxMessage) : RxMap :=
  if m.any (fun p => p.1 == k) then
    m.map (fun p => if p.1 == k then (k, v) else p)
  else
    m ++ [(k, v)]

/-- Go map deletion `delete(t.reassembly, seq)`. -/
def rxErase (m : RxMap) (k : Nat) : RxMap :=
  m.filter (fun p => ! (p.1 == k))

/-- The reaping loop at the top of `acceptData`: drop every entry whose age
`now - createdAt` exceeds two minutes. -/
def rxReap (m : RxMap) (now : Nat) : RxMap :=
  m.filter (fun p => ! (decide (p.2.createdAt + twoMinutes < now)))

/-- The buffer-selection step of `acceptData`: take the existing entry when
its `total` matches, otherwise (no entry, or a disagreeing `total`) start a
fresh buffer of `total` empty slots created `now`. -/
def lookupOrFresh (m1 : RxMap) (seq total now : Nat) : RxMessage :=
  match rxLookup m1 seq with
  | some msg0 =>
      if msg0.total = total then msg0
      else ⟨total, List.replicate total none, now⟩
  | none => ⟨total, List.replicate total none, now⟩

/-- The first-write-wins step of `acceptData`: copy the payload into slot
`idx` only when that slot is still `nil`. -/
def fillSlot (frags : List (Option (List Nat))) (idx : Nat)
    (payload : List Nat) : List (Option (List Nat)) :=
  if frags.getD idx none = none then frags.set idx (some payload) else frags

/-- The completeness loop of `acceptData`: all of the first `T` slots are
filled. -/
def allFilled (T : Nat) (frags : List (Option (List Nat))) : Bool :=
  (List.range T).all (fun i => (frags.getD i none).isSome)

/-- The concatenation loop of `acceptData`: the full message, in fragment
order. -/
def assemble (T : Nat) (frags : List (Option (List Nat))) : List Nat :=
  ((List.range T).map (fun i => (frags.getD i none).getD [])).flatten

/-- `Transport.acceptData(seq, total, idx, payload)` from the source,
returning the updated reassembly map together with the message (if any)
handed to the `recv` stream by this call. -/
def acceptData (m : RxMap) (now seq total idx : Nat) (payload : List Nat) :
    RxMap × Option (List Nat) :=
  if total = 0 ∨ total ≤ idx then (m, none)
  else
    let m1 := rxReap m now
    let msg := lookupOrFresh m1 seq total now
    let frags := fillSlot msg.fragments idx payload
    if allFilled msg.total frags then
      (rxErase m1 seq, some (assemble msg.total frags))
    else
      (rxInsert m1 seq ⟨msg.total, frags, msg.createdAt⟩, none)

/-- Feed a list of parsed DATA packets `(seq, total, idx, payload)` through
`acceptData`, collecting the delivered messages in order. -/
def runAccept (m : RxMap) (now : Nat) (pkts : List (Nat × Nat × Nat × List Nat)) :
    RxMap × List (List Nat) :=
  match pkts with
  | [] => (m, [])
  | (seq, total, idx, payload) :: rest =>
      let step := acceptData m now seq total idx payload
      let tail := runAccept step.1 now rest
      (tail.1, step.2.toList ++ tail.2)

/-- Field extraction performed by `OnReceivePacket` on a raw DATA packet:
`(data[1], data[2], data[3], data[4:])`. -/
def parseData (p : List Nat) : Nat × Nat × Nat × List Nat :=
  (p.getD 1 0, p.getD 2 0, p.getD 3 0, p.drop 4)

/-- Feed raw DATA packets (as emitted by `SendMessage`) to `acceptData`. -/
def runFeed (m : RxMap) (now : Nat) (pkts : List (List Nat)) :
    RxMap × List (List Nat) :=
  runAccept m now (pkts.map parseData)

/-- The payload slice of fragment `i`: `data[i*16 : min((i+1)*16, n)]`. -/
def fragPayload (data : List Nat) (i : Nat) : List Nat :=
  (data.drop (payloadSize * i)).take payloadSize

/-- Fragment `i` as built by `SendMessage`:
`[0x01, seq, total, idx] ++ payload`. -/
def buildPacket (data : List Nat) (seq total i : Nat) : List Nat :=
  [packetData, seq, total, i] ++ fragPayload data i

/-- All DATA packets built by `SendMessage` for message `data` under
sequence number `seq`. -/
def buildPackets (data : List Nat) (seq : Nat) : List (List Nat) :=
  (List.range ((data.length + payloadSize - 1) / payloadSize)).map
    (fun i => buildPacket data seq ((data.length + payloadSize - 1) / payloadSize) i)

/-- Observable effect of one `Transport.SendMessage` call: whether the
"message too large" error was returned, the counter value after the call
(`nextSeq` is a wrapping `uint32`), the assigned sequence number (0 when no
fragment is built), the DATA packets built, and the PendingAck keys
registered during the call (each is unregistered again before return). -/
structure SendEffect where
  tooLarge : Bool
  counterAfter : Nat
  seq : Nat
  packets : List (List Nat)
  acksRegistered : List (Nat × Nat)
deriving DecidableEq

/-- The validation, sequence-assignment and fragmentation stage of
`Transport.SendMessage`.  The per-fragment retry loop (channel waits with
900 ms timeouts) is timing-dependent and outside this pure embedding; the
`packets` field lists the DATA packets the loop transmits (each at least
once when delivery succeeds), in order. -/
def sendMessage (counter : Nat) (data : List Nat) : SendEffect :=
  if data.length = 0 then ⟨false, counter, 0, [], []⟩
  else
    let total := (data.length + payloadSize - 1) / payloadSize
    if 255 < total then ⟨true, counter, 0, [], []⟩
    else
      let c2 := (counter + 1) % 4294967296
      let sq := if c2 % 256 = 0 then 1 else c2 % 256
      ⟨false, c2, sq,
        (List.range total).map (fun i => buildPacket data sq total i),
        (List.range total).map (fun i => (sq, i))⟩

/-- A per-fragment ACK channel (`chan struct{}` of capacity 1): whether a
signal is buffered in it and whether it has been closed. -/
structure AckChan where
  buffered : Bool
  closed : Bool
deriving DecidableEq

/-- The `pendingAcks` map `map[pendingAckKey]chan struct{}`. -/
abbrev PendingMap := List ((Nat × Nat) × AckChan)

/-- Lookup in the PendingAck map. -/
def pLookup (m : PendingMap) (k : Nat × Nat) : Option AckChan :=
  (m.find? (fun p => p.1 == k)).map (fun p => p.2)

/-- Assignment in the PendingAck map (replace or append). -/
def pInsert (m : PendingMap) (k : Nat × Nat) (v : AckChan) : PendingMap :=
  if m.any (fun p => p.1 == k) then
    m.map (fun p => if p.1 == k then (k, v) else p)
  else
    m ++ [(k, v)]

/-- `Transport.registerAck`: store a fresh empty channel under `(seq, idx)`. -/
def registerAck (m : PendingMap) (seq idx : Nat) : PendingMap :=
  pInsert m (seq, idx) ⟨false, false⟩

/-- `Transport.unregisterAck`: delete the `(seq, idx)` entry. -/
def unregisterAck (m : PendingMap) (seq idx : Nat) : PendingMap :=
  m.filter (fun p => ! (p.1 == (seq, idx)))

/-- `Transport.signalAck`: if `(seq, idx)` is registered, perform the
non-blocking send (`select`/`default`): buffer a signal when the channel is
empty, drop it otherwise; an unregistered key is ignored. -/
def signalAck (m : PendingMap) (seq idx : Nat) : PendingMap :=
  match pLookup m (seq, idx) with
  | none => m
  | some c => if c.buffered then m else pInsert m (seq, idx) ⟨true, c.closed⟩

/-- The mutable transport state touched by the receive path and the session
teardown: the PendingAck map and the reassembly map. -/
structure TransportState where
  pendingAcks : PendingMap
  reassembly : RxMap
deriving DecidableEq

/-- Mark a channel closed (`close(ch)`). -/
def closeChan (c : AckChan) : AckChan :=
  ⟨c.buffered, true⟩

/-- The drain loop of `OnConnected`: delete every PendingAck entry from the
map and close its channel, reporting the closed channels. -/
def drainAcks : PendingMap → List ((Nat × Nat) × AckChan)
  | [] => []
  | (k, c) :: rest => (k, closeChan c) :: drainAcks rest

/-- `Transport.OnConnected`: drain (delete + close) every PendingAck entry
and clear the reassembly map.  The second component reports the channels
that were closed, paired with their keys. -/
def onConnected (s : TransportState) : TransportState × List ((Nat × Nat) × AckChan) :=
  (⟨[], []⟩, drainAcks s.pendingAcks)

/-- `Transport.OnDisconnected` simply calls `OnConnected`. -/
def onDisconnected (s : TransportState) : TransportState × List ((Nat × Nat) × AckChan) :=
  onConnected s

/-- `Transport.OnReceivePacket`: drop short packets; an ACK packet signals
the PendingAck channel; a DATA packet first writes the echo ACK frame
`[0x02, seq, total, idx]` and then runs `acceptData`.  Returns the new
state, the frames written to the link, and the message (if any) delivered
to `recv`. -/
def onReceivePacket (s : TransportState) (now : Nat) (data : List Nat) :
    TransportState × List (List Nat) × Option (List Nat) :=
  if data.length < headerSize then (s, [], none)
  else
    let tByte := data.getD 0 0
    let seq := data.getD 1 0
    let total := data.getD 2 0
    let idx := data.getD 3 0
    if tByte = packetAck then
      ({ s with pendingAcks := signalAck s.pendingAcks seq idx }, [], none)
    else if tByte = packetData then
      let step := acceptData s.reassembly now seq total idx (data.drop 4)
      ({ s with reassembly := step.1 }, [[packetAck, seq, total, idx]], step.2)
    else
      (s, [], none)

/-!
## D-Bus variant decoder (`decode.go`)

A `wireReader` is a buffer (`List Nat` of byte values) with a position; we
pass `(buf, pos)` explicitly.  Reads that Go would perform past the end of
the buffer panic (slice-bounds / index-out-of-range); a panic is modelled
by `none`.
-/

/-- `wireReader.align(n)`: advance `pos` to the next multiple of `n`. -/
def alignTo (n pos : Nat) : Nat :=
  pos + (n - pos % n) % n

/-- `binary.LittleEndian.Uint32(r.buf[pos:])`; panics (`none`) when fewer
than 4 bytes remain. -/
def readU32le (buf : List Nat) (pos : Nat) : Option Nat :=
  if pos + 4 ≤ buf.length then
    some (buf.getD pos 0 + 256 * buf.getD (pos + 1) 0 +
      65536 * buf.getD (pos + 2) 0 + 16777216 * buf.getD (pos + 3) 0)
  else none

/-- `binary.LittleEndian.Uint16(r.buf[pos:])`; panics (`none`) when fewer
than 2 bytes remain. -/
def readU16le (buf : List Nat) (pos : Nat) : Option Nat :=
  if pos + 2 ≤ buf.length then
    some (buf.getD pos 0 + 256 * buf.getD (pos + 1) 0)
  else none

/-- The dynamic (`any`) value produced by `decodeVariantValue`. -/
inductive DVal where
  | nilV : DVal
  | str (s : List Nat) : DVal
  | boolV (b : Bool) : DVal
  | byteV (n : Nat) : DVal
  | u16 (n : Nat) : DVal
  | u32 (n : Nat) : DVal
  | bytes (l : List Nat) : DVal
  | strs (l : List (List Nat)) : DVal
deriving DecidableEq

/-- The `"as"` (array-of-string) loop inside `decodeVariantValue`: while
`pos < end` and at least 4 bytes remain, align to 4, read a `u32` string
length and the string bytes, advancing past the trailing NUL. -/
def asLoop (buf : List Nat) (endP : Nat) (pos : Nat) (acc : List (List Nat)) :
    Option (List (List Nat) × Nat) :=
  if _h : pos < endP ∧ 4 ≤ buf.length - pos then
    let p1 := alignTo 4 pos
    match readU32le buf p1 with
    | none => none
    | some sln =>
        let p2 := p1 + 4
        if p2 + sln ≤ buf.length then
          asLoop buf endP (p2 + sln + 1) (acc ++ [(buf.drop p2).take sln])
        else none
  else some (acc, pos)
termination_by endP - pos
decreasing_by
  have hpos : pos ≤ alignTo 4 pos := Nat.le_add_right _ _
  omega

/-- `decodeVariantValue(r, sig)` from `decode.go`, on reader state
`(buf, pos)`; returns the decoded value and the new position, or `none`
when the Go code panics.  Byte values of signature characters:
`'s' = 115`, `'o' = 111`, `'b' = 98`, `'y' = 121`, `'q' = 113`,
`'n' = 110`, `'u' = 117`, `'i' = 105`, `'a' = 97`, `'}' = 125`. -/
def decodeVariantValue (buf : List Nat) (pos : Nat) (sig : List Nat) :
    Option (DVal × Nat) :=
  match sig with
  | [] => some (.nilV, pos)
  | c :: rest =>
    if c = 115 ∨ c = 111 then
      let p1 := alignTo 4 pos
      match readU32le buf p1 with
      | none => none
      | some ln =>
          let p2 := p1 + 4
          if p2 + ln ≤ buf.length then
            some (.str ((buf.drop p2).take ln), p2 + ln + 1)
          else none
    else if c = 98 then
      let p1 := alignTo 4 pos
      (readU32le buf p1).map (fun v => (.boolV (v = 1), p1 + 4))
    else if c = 121 then
      if pos < buf.length then some (.byteV (buf.getD pos 0), pos + 1) else none
    else if c = 113 ∨ c = 110 then
      let p1 := alignTo 2 pos
      (readU16le buf p1).map (fun v => (.u16 v, p1 + 2))
    else if c = 117 ∨ c = 105 then
      let p1 := alignTo 4 pos
      (readU32le buf p1).map (fun v => (.u32 v, p1 + 4))
    else if c = 97 then
      if rest.getD 0 0 = 121 then
        let p1 := alignTo 4 pos
        match readU32le buf p1 with
        | none => none
        | some ln =>
            let p2 := p1 + 4
            if p2 + ln ≤ buf.length then
              some (.bytes ((buf.drop p2).take ln), p2 + ln)
            else none
      else if 1 < rest.length ∧ rest.getD 0 0 = 115 ∧ rest.getD 1 0 = 125 then
        let p1 := alignTo 4 pos
        match readU32le buf p1 with
        | none => none
        | some ln =>
            let p2 := p1 + 4
            (asLoop buf (p2 + ln) p2 []).map (fun r => (.strs r.1, r.2))
      else
        let p1 := alignTo 4 pos
        match readU32le buf p1 with
        | none => none
        | some ln =>
            let p2 := alignTo 8 (p1 + 4)
            some (.nilV, p2 + ln)
    else some (.nilV, pos)

/-- `DecodeBodyVariant(body)` from `decode.go`: returns the signature and
decoded value (`Variant{}` is `([], nilV)`), or `none` when the Go code
panics. -/
def decodeBodyVariant (body : List Nat) : Option (List Nat × DVal) :=
  if body.length < 1 then some ([], .nilV)
  else
    let sigLen := body.getD 0 0
    if 1 + sigLen + 1 > body.length then some ([], .nilV)
    else
      let sig := (body.drop 1).take sigLen
      (decodeVariantValue body (1 + sigLen + 1) sig).map (fun r => (sig, r.1))

/-!
## D-Bus authentication handshake (`auth.go`)

`auth` is modelled as a function of the hex-encoded uid and the sequence of
lines the server makes available to `ReadString('\n')`; it returns the
trace of items written to the socket, in order, and whether the handshake
succeeded (`false` covers both read errors, when the response list is
exhausted, and the fatal "auth failed" error).
-/

/-- An item written to the socket during `auth`. -/
inductive AuthSent where
  | nulByte : AuthSent
  | line (s : List Char) : AuthSent
deriving DecidableEq

/-- `trimCRLF`: strip trailing `'\r'` and `'\n'` characters. -/
def trimCRLF (s : List Char) : List Char :=
  (s.reverse.dropWhile (fun c => c == '\r' || c == '\n')).reverse

/-- The first response test in `auth`
(`line == "OK" || len(line) > 3 && line[:3] == "OK "`): the trimmed line
equals `"OK"`, or has length greater than 3 and starts with `"OK "`. -/
def isOKResp (l : List Char) : Bool :=
  l == ['O', 'K'] || (decide (3 < l.length) && l.take 3 == ['O', 'K', ' '])

/-- The second response test in `auth`, the negation of its failure
condition `line != "OK" && (len(line) < 3 || line[:3] != "OK ")`: the
trimmed line equals `"OK"`, or has length at least 3 and starts with
`"OK "`.  Unlike the first test, this one accepts the exactly-3-character
line `"OK "`. -/
def isOKRespSecond (l : List Char) : Bool :=
  l == ['O', 'K'] || (decide (3 ≤ l.length) && l.take 3 == ['O', 'K', ' '])

/-- The `"AUTH EXTERNAL <hexuid>\r\n"` line. -/
def authExternalLine (uidHex : List Char) : List Char :=
  "AUTH EXTERNAL ".toList ++ uidHex ++ ['\r', '\n']

/-- The `"BEGIN\r\n"` line. -/
def beginLine : List Char :=
  "BEGIN\r\n".toList

/-- `auth(conn)` from `auth.go`: write the single `0x00` byte, read a line;
if it passes the first OK test send `BEGIN` and succeed; otherwise send
`AUTH EXTERNAL <hex(uid)>`, read a second line, and send `BEGIN` exactly
when that second line passes the second OK test, failing otherwise. -/
def authTrace (uidHex : List Char) (responses : List (List Char)) :
    List AuthSent × Bool :=
  match responses with
  | [] => ([.nulByte], false)
  | l1 :: rest =>
    if isOKResp (trimCRLF l1) then ([.nulByte, .line beginLine], true)
    else
      match rest with
      | [] => ([.nulByte, .line (authExternalLine uidHex)], false)
      | l2 :: _ =>
        if isOKRespSecond (trimCRLF l2) then
          ([.nulByte, .line (authExternalLine uidHex), .line beginLine], true)
        else ([.nulByte, .line (authExternalLine uidHex)], false)

/-!
## Helper definitions for the reassembly proofs
-/

/-- The fragment vector of a partially reassembled message: slot `i` is
filled with fragment `i` of `data` exactly when `i` has been seen. -/
def mkSlots (data : List Nat) (seen : List Nat) (T : Nat) :
    List (Option (List Nat)) :=
  (List.range T).map (fun i => if i ∈ seen then some (fragPayload data i) else none)

/-- The reassembly map after the fragments with indices in `seen` (a subset
of `[0, T)`) of one message have arrived: empty before the first fragment,
afterwards a single entry under the message sequence number. -/
def seenState (data : List Nat) (sq now T : Nat) (seen : List Nat) : RxMap :=
  if seen = [] then [] else [(sq, ⟨T, mkSlots data seen T, now⟩)]

/-- The parsed form of DATA fragment `i` of message `data`. -/
def gpkt (data : List Nat) (sq T i : Nat) : Nat × Nat × Nat × List Nat :=
  (sq, T, i, fragPayload data i)

/-!
## Theorems
-/

/-- Claim C10: for the empty message, `SendMessage` returns success
immediately: no packet is written, the `nextSeq` counter is not advanced,
and no PendingAck entry is registered. -/
theorem claim10_empty_send (counter : Nat) :
    sendMessage counter [] = ⟨false, counter, 0, [], []⟩ := rfl

/-- Claim C3: a message longer than 4080 bytes is rejected with the
"message too large" error before any packet is written or any PendingAck
entry is created (and the counter is not advanced), while messages of
1..=4080 bytes are not rejected by this check. -/
theorem claim3_too_large (counter : Nat) (data : List Nat) :
    (4080 < data.length →
      sendMessage counter data = ⟨true, counter, 0, [], []⟩) ∧
    (1 ≤ data.length → data.length ≤ 4080 →
      (sendMessage counter data).tooLarge = false) := by
  constructor
  · intro h
    have h0 : ¬ data.length = 0 := by omega
    have h1 : 255 < (data.length + payloadSize - 1) / payloadSize := by
      simp only [payloadSize, bleMTU, headerSize]
      omega
    simp only [sendMessage, if_neg h0, if_pos h1]
  · intro ha hb
    have h0 : ¬ data.length = 0 := by omega
    have h1 : ¬ 255 < (data.length + payloadSize - 1) / payloadSize := by
      simp only [payloadSize, bleMTU, headerSize]
      omega
    simp only [sendMessage, if_neg h0, if_neg h1]

/-- Witness for C3: a 4081-byte message is rejected with nothing emitted,
while a 1-byte message passes the size check. -/
theorem claim3_too_large_witness :
    sendMessage 0 (List.replicate 4081 120) = ⟨true, 0, 0, [], []⟩ ∧
    (sendMessage 0 [120]).tooLarge = false :=
  ⟨(claim3_too_large 0 (List.replicate 4081 120)).1
      (by simp only [List.length_replicate]; omega),
   (claim3_too_large 0 [120]).2 (by simp) (by simp)⟩

/-- Claim C7: `OnReceivePacket` ignores every packet shorter than 4 bytes
(no state change, no frame written, no delivery), and `acceptData` drops a
DATA packet with `total = 0` or `idx ≥ total` without storing anything and
without delivering anything. -/
theorem claim7_drop_invalid (s : TransportState) (m : RxMap)
    (now seq total idx : Nat) (data payload : List Nat) :
    (data.length < 4 → onReceivePacket s now data = (s, [], none)) ∧
    (total = 0 ∨ total ≤ idx →
      acceptData m now seq total idx payload = (m, none)) := by
  constructor
  · intro h
    have h4 : data.length < headerSize := by simpa [headerSize] using h
    simp only [onReceivePacket, if_pos h4]
  · intro h
    simp only [acceptData, if_pos h]

/-- Witness for C7: a 2-byte packet is ignored, a `total = 0` DATA packet
and an `idx ≥ total` DATA packet are both dropped. -/
theorem claim7_drop_invalid_witness :
    onReceivePacket ⟨[], []⟩ 0 [9, 9] = (⟨[], []⟩, [], none) ∧
    acceptData [] 0 3 0 0 [1] = ([], none) ∧
    acceptData [] 0 3 2 5 [1] = ([], none) :=
  ⟨(claim7_drop_invalid ⟨[], []⟩ [] 0 3 0 0 [9, 9] [1]).1 (by decide),
   (claim7_drop_invalid ⟨[], []⟩ [] 0 3 0 0 [9, 9] [1]).2 (by decide),
   (claim7_drop_invalid ⟨[], []⟩ [] 0 3 2 5 [9, 9] [1]).2 (by decide)⟩

/-- Claim C8 evaluated at the failing input: decoding the truncated variant
body `[0x01, 's', 0x00]` (declared signature `"s"`, no value bytes) makes
`decodeVariantValue` read a 4-byte string length past the end of the
buffer, which in Go panics with a slice-bounds error; in the embedding the
panic is the `none` result.  This contradicts the claim that the decoders
never panic on truncated input. -/
theorem claim8_decode_truncated_panics :
    decodeBodyVariant [1, 115, 0] = none ∧
    decodeVariantValue [1, 115, 0] 3 [115] = none := ⟨rfl, rfl⟩

/-- Counterexample to claim C2 as stated: a retransmitted fragment of an
already-completed single-fragment message (its ACK was lost, so the sender
sent DATA `(seq 1, total 1, idx 0)` twice) re-creates the reassembly buffer
and completes it again: the receiver delivers the same message twice, so
duplicate fragment arrivals after completion do cause an extra delivery. -/
theorem claim2_counterexample :
    runAccept [] 0 [(1, 1, 0, [104, 105]), (1, 1, 0, [104, 105])] =
      ([], [[104, 105], [104, 105]]) := by decide

/-- Draining the PendingAck map closes exactly the registered channels, in
map order. -/
theorem drainAcks_eq_map (m : PendingMap) :
    drainAcks m = m.map (fun e => (e.1, closeChan e.2)) := by
  induction m with
  | nil => rfl
  | cons e rest ih =>
      cases e with
      | mk k c => simp [drainAcks, ih]

/-- Claim C5: `OnConnected` empties the PendingAck map, closing every
previously registered ack channel (so a sender waiting on one of them
observes a failed receive), and empties the reassembly map;
`OnDisconnected` does exactly the same, and a second call leaves the
already-empty state unchanged and closes nothing. -/
theorem claim5_teardown (s : TransportState) :
    onConnected s =
      (⟨[], []⟩, s.pendingAcks.map (fun e => (e.1, closeChan e.2))) ∧
    onDisconnected s = onConnected s ∧
    onConnected (onConnected s).1 = ((onConnected s).1, []) := by
  refine ⟨?_, rfl, rfl⟩
  simp only [onConnected, drainAcks_eq_map]

/-- A `pLookup` hit implies the key occurs in the map. -/
theorem pLookup_any (m : PendingMap) (k : Nat × Nat) (c : AckChan)
    (h : pLookup m k = some c) : m.any (fun p => p.1 == k) = true := by
  induction m with
  | nil => simp [pLookup] at h
  | cons e rest ih =>
      by_cases he : (e.1 == k) = true
      · simp [List.any_cons, he]
      · rw [pLookup, List.find?_cons_of_neg (p := fun (q : (Nat × Nat) × AckChan) => q.1 == k) _ he] at h
        simp only [List.any_cons, he, Bool.false_or]
        exact ih h

/-- Looking up the replaced key after a key-wise replacement. -/
theorem pLookup_replace_eq (m : PendingMap) (k : Nat × Nat) (v : AckChan) :
    pLookup (m.map (fun p => if p.1 == k then (k, v) else p)) k =
      if m.any (fun p => p.1 == k) then some v else none := by
  induction m with
  | nil => simp [pLookup]
  | cons e rest ih =>
      by_cases he : (e.1 == k) = true
      · have h1 : (if (e.1 == k) = true then (k, v) else e) = (k, v) :=
          if_pos he
        have h2 : (((k, v) : (Nat × Nat) × AckChan).1 == k) = true := by simp
        rw [List.map_cons, h1, pLookup,
          List.find?_cons_of_pos (p := fun (q : (Nat × Nat) × AckChan) => q.1 == k) _ h2]
        simp [List.any_cons, he]
      · have h1 : (if (e.1 == k) = true then (k, v) else e) = e := if_neg he
        rw [List.map_cons, h1, pLookup,
          List.find?_cons_of_neg (p := fun (q : (Nat × Nat) × AckChan) => q.1 == k) _ he]
        simp only [List.any_cons, he, Bool.false_or]
        exact ih

/-- A key-wise replacement does not affect lookups of other keys. -/
theorem pLookup_replace_ne (m : PendingMap) (k k2 : Nat × Nat) (v : AckChan)
    (hne : ¬ k2 = k) :
    pLookup (m.map (fun p => if p.1 == k then (k, v) else p)) k2 =
      pLookup m k2 := by
  induction m with
  | nil => rfl
  | cons e rest ih =>
      by_cases he : (e.1 == k) = true
      · have hek : e.1 = k := by simpa using he
        have h1 : (if (e.1 == k) = true then (k, v) else e) = (k, v) :=
          if_pos he
        have h2 : ¬ ((((k, v) : (Nat × Nat) × AckChan).1 == k2) = true) := by
          simp
          exact fun hh => hne hh.symm
        have h3 : ¬ ((e.1 == k2) = true) := by
          rw [hek]
          exact h2
        rw [List.map_cons, h1, pLookup,
          List.find?_cons_of_neg (p := fun (q : (Nat × Nat) × AckChan) => q.1 == k2) _ h2]
        rw [pLookup, List.find?_cons_of_neg (p := fun (q : (Nat × Nat) × AckChan) => q.1 == k2) _ h3]
        exact ih
      · have h1 : (if (e.1 == k) = true then (k, v) else e) = e := if_neg he
        rw [List.map_cons, h1]
        by_cases he2 : (e.1 == k2) = true
        · rw [pLookup, List.find?_cons_of_pos (p := fun (q : (Nat × Nat) × AckChan) => q.1 == k2) _ he2,
            pLookup, List.find?_cons_of_pos (p := fun (q : (Nat × Nat) × AckChan) => q.1 == k2) _ he2]
        · rw [pLookup, List.find?_cons_of_neg (p := fun (q : (Nat × Nat) × AckChan) => q.1 == k2) _ he2,
            pLookup, List.find?_cons_of_neg (p := fun (q : (Nat × Nat) × AckChan) => q.1 == k2) _ he2]
          exact ih

/-- Lookup after `pInsert` at the inserted key. -/
theorem pLookup_pInsert_self (m : PendingMap) (k : Nat × Nat)
    (c v : AckChan) (h : pLookup m k = some c) :
    pLookup (pInsert m k v) k = some v := by
  have ha := pLookup_any m k c h
  rw [pInsert, if_pos ha, pLookup_replace_eq, if_pos ha]

/-- Claim C6: an incoming ACK only affects the registered entry of its
exact `(seq, idx)` key: an ACK for an unregistered key is discarded with no
state change, signalling is idempotent (a second ACK before the sender
consumes the buffered signal is dropped), and entries of other keys are
never touched. -/
theorem claim6_ack_signal (m : PendingMap) (seq idx : Nat) :
    (pLookup m (seq, idx) = none → signalAck m seq idx = m) ∧
    signalAck (signalAck m seq idx) seq idx = signalAck m seq idx ∧
    (∀ k, ¬ k = (seq, idx) →
      pLookup (signalAck m seq idx) k = pLookup m k) := by
  refine ⟨?_, ?_, ?_⟩
  · intro h
    simp only [signalAck, h]
  · cases hl : pLookup m (seq, idx) with
    | none => simp only [signalAck, hl]
    | some c =>
        by_cases hb : c.buffered = true
        · simp only [signalAck, hl, if_pos hb]
        · have h2 : pLookup (pInsert m (seq, idx) ⟨true, c.closed⟩) (seq, idx) =
              some ⟨true, c.closed⟩ := pLookup_pInsert_self m _ c _ hl
          simp only [signalAck, hl, if_neg hb, h2, if_pos]
  · intro k hk
    cases hl : pLookup m (seq, idx) with
    | none => simp only [signalAck, hl]
    | some c =>
        by_cases hb : c.buffered = true
        · simp only [signalAck, hl, if_pos hb]
        · have ha := pLookup_any m (seq, idx) c hl
          simp only [signalAck, hl, if_neg hb, pInsert, if_pos ha]
          exact pLookup_replace_ne m (seq, idx) k ⟨true, c.closed⟩ hk

/-- Witness for C6: an ACK for an unregistered key is a no-op, and
signalling does not disturb an unrelated key. -/
theorem claim6_ack_signal_witness :
    signalAck [] 1 0 = [] ∧
    pLookup (signalAck [((1, 0), ⟨false, false⟩)] 1 0) (2, 2) =
      pLookup [((1, 0), ⟨false, false⟩)] (2, 2) :=
  ⟨(claim6_ack_signal [] 1 0).1 (by decide),
   (claim6_ack_signal [((1, 0), ⟨false, false⟩)] 1 0).2.2 (2, 2) (by decide)⟩

/-- Deleting a key from the reassembly map makes its lookup fail. -/
theorem rxLookup_erase (m : RxMap) (k : Nat) :
    rxLookup (rxErase m k) k = none := by
  induction m with
  | nil => rfl
  | cons e rest ih =>
      rw [rxErase, List.filter_cons]
      by_cases he : (e.1 == k) = true
      · simp only [he, Bool.not_true, Bool.false_eq_true, if_false]
        simp only [rxErase] at ih
        exact ih
      · have hb : (e.1 == k) = false := by
          cases hq : (e.1 == k)
          · rfl
          · exact absurd hq he
        simp only [hb, Bool.not_false, if_true]
        rw [rxLookup,
          List.find?_cons_of_neg (p := fun (q : Nat × RxMessage) => q.1 == k) _ he]
        simp only [rxErase, rxLookup] at ih
        exact ih

/-- A reassembly lookup hit implies the key occurs in the map. -/
theorem rxLookup_any (m : RxMap) (k : Nat) (c : RxMessage)
    (h : rxLookup m k = some c) : m.any (fun p => p.1 == k) = true := by
  induction m with
  | nil => simp [rxLookup] at h
  | cons e rest ih =>
      by_cases he : (e.1 == k) = true
      · simp [List.any_cons, he]
      · rw [rxLookup,
          List.find?_cons_of_neg (p := fun (q : Nat × RxMessage) => q.1 == k) _ he]
          at h
        simp only [List.any_cons, he, Bool.false_or]
        exact ih h

/-- Re-inserting the value a key already holds leaves the map unchanged
(when keys are unique, as they are in a Go map). -/
theorem rxInsert_lookup_self (m : RxMap) (k : Nat) (msg : RxMessage)
    (hnd : (m.map Prod.fst).Nodup) (hlk : rxLookup m k = some msg) :
    rxInsert m k msg = m := by
  induction m with
  | nil => simp [rxLookup] at hlk
  | cons e rest ih =>
      have ha : ((e :: rest).any fun p => p.1 == k) = true :=
        rxLookup_any _ _ _ hlk
      rw [rxInsert, if_pos ha, List.map_cons]
      by_cases he : (e.1 == k) = true
      · have hek : e.1 = k := by simpa using he
        have hhead : rxLookup (e :: rest) k = some e.2 := by
          rw [rxLookup,
            List.find?_cons_of_pos (p := fun (q : Nat × RxMessage) => q.1 == k) _ he]
          rfl
        have hmsg : msg = e.2 := by
          rw [hhead] at hlk
          exact (Option.some.inj hlk).symm
        have hrepl : (if (e.1 == k) = true then (k, msg) else e) = e := by
          rw [if_pos he, hmsg, ← hek]
        have hnd2 : e.1 ∉ rest.map Prod.fst ∧ (rest.map Prod.fst).Nodup := by
          simpa [List.map_cons, List.nodup_cons] using hnd
        have htail :
            rest.map (fun p => if (p.1 == k) = true then (k, msg) else p) = rest := by
          conv_rhs => rw [← List.map_id rest]
          apply List.map_congr_left
          intro p hp
          have hp1 : ¬ ((p.1 == k) = true) := by
            simp only [beq_iff_eq]
            intro hq
            exact hnd2.1 (by rw [hek, ← hq]; exact List.mem_map_of_mem Prod.fst hp)
          simp [hp1]
        rw [hrepl, htail]
      · have h1 : (if (e.1 == k) = true then (k, msg) else e) = e := if_neg he
        rw [h1]
        have hlk2 : rxLookup rest k = some msg := by
          rw [rxLookup,
            List.find?_cons_of_neg (p := fun (q : Nat × RxMessage) => q.1 == k) _ he]
            at hlk
          exact hlk
        have hnd2 : (rest.map Prod.fst).Nodup := by
          simp only [List.map_cons, List.nodup_cons] at hnd
          exact hnd.2
        have ha2 := rxLookup_any _ _ _ hlk2
        have hres := ih hnd2 hlk2
        rw [rxInsert, if_pos ha2] at hres
        rw [hres]

/-- Shape analysis of one `acceptData` call: either nothing is delivered,
or the reassembly entry of the packet's seq has been deleted. -/
theorem acceptData_out_cases (m : RxMap) (now seq total idx : Nat)
    (payload : List Nat) :
    (acceptData m now seq total idx payload).2 = none ∨
    (acceptData m now seq total idx payload).1 = rxErase (rxReap m now) seq := by
  unfold acceptData
  by_cases h0 : total = 0 ∨ total ≤ idx
  · rw [if_pos h0]
    exact Or.inl rfl
  · rw [if_neg h0]
    dsimp only
    by_cases hc :
        allFilled (lookupOrFresh (rxReap m now) seq total now).total
          (fillSlot (lookupOrFresh (rxReap m now) seq total now).fragments idx
            payload) = true
    · rw [if_pos hc]
      exact Or.inr rfl
    · rw [if_neg hc]
      exact Or.inl rfl

/-- Claim C2, amended: every delivery consumes the reassembly buffer of its
seq (so each completion delivers exactly one message), and a duplicate
fragment arriving while an incomplete buffer with the same `total` is live
is ignored: first-write-wins, no state change beyond reaping, no delivery.
(A duplicate arriving after the buffer completed and was deleted starts a
fresh buffer, which for a single-fragment message completes and delivers
again; see the counterexample.) -/
theorem claim2_amended (m : RxMap) (now seq total idx : Nat)
    (payload : List Nat) :
    (∀ st out, acceptData m now seq total idx payload = (st, some out) →
      rxLookup st seq = none) ∧
    (∀ msg : RxMessage,
      ((rxReap m now).map Prod.fst).Nodup →
      rxLookup (rxReap m now) seq = some msg →
      msg.total = total →
      ¬ (total = 0 ∨ total ≤ idx) →
      (msg.fragments.getD idx none).isSome = true →
      ¬ (allFilled msg.total msg.fragments = true) →
      acceptData m now seq total idx payload = (rxReap m now, none)) := by
  constructor
  · intro st out h
    rcases acceptData_out_cases m now seq total idx payload with ho | he
    · rw [h] at ho
      exact Option.noConfusion ho
    · rw [h] at he
      dsimp only at he
      rw [he]
      exact rxLookup_erase (rxReap m now) seq
  · intro msg hnd hlk hT hval hsome hncomp
    have hkey : lookupOrFresh (rxReap m now) seq total now = msg := by
      unfold lookupOrFresh
      rw [hlk]
      dsimp only
      rw [if_pos hT]
    have hne : ¬ (msg.fragments.getD idx none = none) := by
      intro hq
      rw [hq] at hsome
      exact Bool.noConfusion hsome
    have hfill : fillSlot msg.fragments idx payload = msg.fragments := by
      unfold fillSlot
      rw [if_neg hne]
    unfold acceptData
    rw [if_neg hval]
    dsimp only
    rw [hkey, hfill, if_neg hncomp]
    have heta : (⟨msg.total, msg.fragments, msg.createdAt⟩ : RxMessage) = msg := rfl
    rw [heta, rxInsert_lookup_self (rxReap m now) seq msg hnd hlk]

/-- Witness for the amended C2: a duplicate of fragment 0 of a live,
incomplete 2-fragment buffer is ignored, and a delivering call deletes the
buffer. -/
theorem claim2_amended_witness :
    acceptData [(1, ⟨2, [some [7], none], 0⟩)] 0 1 2 0 [9] =
      (rxReap [(1, ⟨2, [some [7], none], 0⟩)] 0, none) ∧
    rxLookup ([] : RxMap) 1 = none :=
  ⟨(claim2_amended [(1, ⟨2, [some [7], none], 0⟩)] 0 1 2 0 [9]).2
      ⟨2, [some [7], none], 0⟩ (by decide) (by decide) (by decide) (by decide)
      (by decide) (by decide),
   (claim2_amended [(1, ⟨2, [some [7], none], 0⟩)] 0 1 2 1 [9]).1 [] [7, 9]
      (by decide)⟩

/-- Claim C4: for a message of `n` bytes (1..=4080), `SendMessage` builds
`total = ceil(n/16)` fragments under sequence number
`(counter + 1) % 256` with 0 skipped (hence always in 1..=255), and
fragment `i` is exactly `[0x01, seq, total, i]` followed by the payload
bytes `i*16 .. min((i+1)*16, n)`. -/
theorem claim4_fragment_format (counter : Nat) (data : List Nat)
    (h1 : 1 ≤ data.length) (h2 : data.length ≤ 4080) :
    (sendMessage counter data).tooLarge = false ∧
    (sendMessage counter data).seq =
      (if (counter + 1) % 256 = 0 then 1 else (counter + 1) % 256) ∧
    1 ≤ (sendMessage counter data).seq ∧
    (sendMessage counter data).seq ≤ 255 ∧
    (sendMessage counter data).packets.length = (data.length + 15) / 16 ∧
    (∀ i, i < (data.length + 15) / 16 →
      (sendMessage counter data).packets[i]? =
        some ([1, (sendMessage counter data).seq, (data.length + 15) / 16, i]
          ++ (data.drop (i * 16)).take 16)) := by
  have h0 : ¬ data.length = 0 := by omega
  have htot : (data.length + payloadSize - 1) / payloadSize =
      (data.length + 15) / 16 := rfl
  have h3 : ¬ 255 < (data.length + payloadSize - 1) / payloadSize := by
    rw [htot]
    omega
  have hmod : (counter + 1) % 4294967296 % 256 = (counter + 1) % 256 :=
    Nat.mod_mod_of_dvd _ (by norm_num)
  have hmlt : (counter + 1) % 256 < 256 := Nat.mod_lt _ (by norm_num)
  refine ⟨?_, ?_, ?_, ?_, ?_, ?_⟩
  · simp only [sendMessage, if_neg h0, if_neg h3]
  · simp only [sendMessage, if_neg h0, if_neg h3, hmod]
  · simp only [sendMessage, if_neg h0, if_neg h3, hmod]
    by_cases hz : (counter + 1) % 256 = 0
    · simp [hz]
    · simp only [if_neg hz]
      omega
  · simp only [sendMessage, if_neg h0, if_neg h3, hmod]
    by_cases hz : (counter + 1) % 256 = 0
    · simp [hz]
    · simp only [if_neg hz]
      omega
  · simp only [sendMessage, if_neg h0, if_neg h3]
    simp only [List.length_map, List.length_range, htot]
  · intro i hi
    simp only [sendMessage, if_neg h0, if_neg h3]
    simp only [htot]
    simp only [List.getElem?_map, List.getElem?_range hi, Option.map_some']
    simp only [buildPacket, fragPayload, packetData, hmod]
    have hpi : payloadSize * i = i * 16 := by
      simp only [payloadSize, bleMTU, headerSize]
      omega
    rw [hpi]
    rfl

/-- Witness for C4: a 17-byte message sent at counter 255 gets
`seq = 1` (the wrap skips 0) and its second fragment is the single
remaining byte behind the header `[1, 1, 2, 1]`. -/
theorem claim4_fragment_format_witness :
    (sendMessage 255 (List.replicate 17 65)).packets[1]? =
      some [1, 1, 2, 1, 65] := by
  have h := claim4_fragment_format 255 (List.replicate 17 65)
    (by simp) (by simp)
  have h6 := h.2.2.2.2.2 1 (by simp)
  have hs := h.2.1
  rw [hs] at h6
  simpa using h6

/-- Counterexample to claim C9 as stated: the code reads a server line
right after writing the `0x00` byte, and when that line is an OK response
it sends `BEGIN` immediately and succeeds without ever sending the
`AUTH EXTERNAL` line — contradicting the claimed order (0x00, then
`AUTH EXTERNAL <hex(uid)>`, then `BEGIN` on OK). -/
theorem claim9_counterexample :
    (authTrace ['3', '1'] [['O', 'K', ' ', '1']]).1 =
      [AuthSent.nulByte, AuthSent.line beginLine] ∧
    AuthSent.line (authExternalLine ['3', '1']) ∉
      (authTrace ['3', '1'] [['O', 'K', ' ', '1']]).1 ∧
    (authTrace ['3', '1'] [['O', 'K', ' ', '1']]).2 = true := by decide

/-- Claim C9, amended, describing what `auth` actually does: it writes the
single `0x00` byte first; it writes the `AUTH EXTERNAL <hex(uid)>` line iff
the first server line it then reads is not an OK response under the first
test (`"OK"` or longer than 3 starting with `"OK "`); it writes `BEGIN` iff
it succeeds; and it succeeds iff either the first server line passes the
first test, or the first does not and the second line passes the second
test (`"OK"` or at least 3 characters starting with `"OK "` — the
exactly-3-character line `"OK "` is accepted here although the first test
rejects it); any other second response is a fatal auth failure. -/
theorem claim9_amended (uidHex : List Char) (rs : List (List Char)) :
    (authTrace uidHex rs).1.head? = some AuthSent.nulByte ∧
    (AuthSent.line (authExternalLine uidHex) ∈ (authTrace uidHex rs).1 ↔
      (∃ r rest, rs = r :: rest ∧ isOKResp (trimCRLF r) = false)) ∧
    (AuthSent.line beginLine ∈ (authTrace uidHex rs).1 ↔
      (authTrace uidHex rs).2 = true) ∧
    ((authTrace uidHex rs).2 = true ↔
      ((∃ r rest, rs = r :: rest ∧ isOKResp (trimCRLF r) = true) ∨
       (∃ r1 r2 rest, rs = r1 :: r2 :: rest ∧
         isOKResp (trimCRLF r1) = false ∧
         isOKRespSecond (trimCRLF r2) = true))) := by
  have hne : authExternalLine uidHex ≠ beginLine := by
    intro h
    exact absurd (congrArg List.head? h) (by simp [authExternalLine, beginLine])
  match rs with
  | [] =>
      refine ⟨rfl, ?_, ?_, ?_⟩ <;> simp [authTrace]
  | r1 :: rest =>
      by_cases h1 : isOKResp (trimCRLF r1) = true
      · refine ⟨?_, ?_, ?_, ?_⟩
        · simp [authTrace, h1]
        · simp [authTrace, h1, hne, h1]
        · simp [authTrace, h1]
        · simp [authTrace, h1]
      · have h1f : isOKResp (trimCRLF r1) = false := by
          cases hq : isOKResp (trimCRLF r1)
          · rfl
          · exact absurd hq h1
        match rest with
        | [] =>
            refine ⟨?_, ?_, ?_, ?_⟩
            · simp [authTrace, h1]
            · simp [authTrace, h1, h1f]
            · simp [authTrace, h1]
              exact fun h => hne h.symm
            · simp [authTrace, h1]
        | r2 :: rest2 =>
            by_cases h2 : isOKRespSecond (trimCRLF r2) = true
            · refine ⟨?_, ?_, ?_, ?_⟩
              · simp [authTrace, h1, h2]
              · simp [authTrace, h1, h2, h1f]
              · simp [authTrace, h1, h2]
              · simp [authTrace, h1, h2, h1f]
                exact ⟨r1, r2, ⟨rfl, rfl⟩, h1f, h2⟩
            · have h2f : isOKRespSecond (trimCRLF r2) = false := by
                cases hq : isOKRespSecond (trimCRLF r2)
                · rfl
                · exact absurd hq h2
              refine ⟨?_, ?_, ?_, ?_⟩
              · simp [authTrace, h1, h2]
              · simp [authTrace, h1, h2, h1f]
              · simp [authTrace, h1, h2]
                exact fun h => hne h.symm
              · simp [authTrace, h1, h2, h2f]

/-- Before any fragment is seen, the slot vector is the fresh buffer
`make([][]byte, T)`. -/
theorem mkSlots_nil (data : List Nat) (T : Nat) :
    mkSlots data [] T = List.replicate T none := by
  unfold mkSlots
  have h1 : (fun i => if i ∈ ([] : List Nat) then some (fragPayload data i)
      else none) = fun _ => (none : Option (List Nat)) := by
    funext i
    simp
  rw [h1, List.map_const', List.length_range]

/-- Length of the partial slot vector. -/
theorem mkSlots_length (data : List Nat) (seen : List Nat) (T : Nat) :
    (mkSlots data seen T).length = T := by
  simp [mkSlots]

/-- Indexing the partial slot vector. -/
theorem mkSlots_getElem? (data : List Nat) (seen : List Nat) (T n : Nat)
    (hn : n < T) :
    (mkSlots data seen T)[n]? =
      some (if n ∈ seen then some (fragPayload data n) else none) := by
  unfold mkSlots
  rw [List.getElem?_map, List.getElem?_range hn, Option.map_some']

/-- `getD` on the partial slot vector. -/
theorem getD_mkSlots (data : List Nat) (seen : List Nat) (T n : Nat)
    (hn : n < T) :
    (mkSlots data seen T).getD n none =
      if n ∈ seen then some (fragPayload data n) else none := by
  rw [List.getD_eq_getElem?_getD, mkSlots_getElem? data seen T n hn]
  rfl

/-- Writing fragment `j` into its empty slot marks `j` as seen. -/
theorem set_mkSlots (data : List Nat) (seen : List Nat) (T j : Nat)
    (hj : j < T) :
    (mkSlots data seen T).set j (some (fragPayload data j)) =
      mkSlots data (j :: seen) T := by
  apply List.ext_getElem?
  intro n
  by_cases hn : n < T
  · by_cases hnj : j = n
    · subst hnj
      rw [List.getElem?_set_self (by rw [mkSlots_length]; exact hj),
        mkSlots_getElem? data (j :: seen) T j hn]
      simp
    · rw [List.getElem?_set_ne hnj, mkSlots_getElem? data seen T n hn,
        mkSlots_getElem? data (j :: seen) T n hn]
      have hx : ¬ n = j := fun h => hnj h.symm
      by_cases hm : n ∈ seen
      · simp [List.mem_cons, hm]
      · simp [List.mem_cons, hm, hx]
  · have hn2 : T ≤ n := by omega
    rw [List.getElem?_eq_none (by rw [List.length_set, mkSlots_length]; exact hn2),
      List.getElem?_eq_none (by rw [mkSlots_length]; exact hn2)]

/-- The completeness check on a partial slot vector holds exactly when
every fragment index below `T` has been seen. -/
theorem allFilled_mkSlots (data : List Nat) (seen : List Nat) (T : Nat) :
    allFilled T (mkSlots data seen T) = true ↔ ∀ i < T, i ∈ seen := by
  unfold allFilled
  rw [List.all_eq_true]
  constructor
  · intro h i hi
    have h2 := h i (List.mem_range.2 hi)
    rw [getD_mkSlots data seen T i hi] at h2
    by_cases hm : i ∈ seen
    · exact hm
    · rw [if_neg hm] at h2
      exact absurd h2 (by simp)
  · intro h i hi
    have hi2 := List.mem_range.1 hi
    rw [getD_mkSlots data seen T i hi2, if_pos (h i hi2)]
    rfl

/-- Concatenating the 16-byte chunks of a message restores the message. -/
theorem flatten_fragPayload (T : Nat) :
    ∀ data : List Nat, data.length ≤ payloadSize * T →
      ((List.range T).map (fragPayload data)).flatten = data := by
  induction T with
  | zero =>
      intro data h
      have h0 : data = [] := List.length_eq_zero.1 (by omega)
      subst h0
      rfl
  | succ T ih =>
      intro data h
      rw [List.range_succ_eq_map, List.map_cons, List.map_map,
        List.flatten_cons]
      have h0 : fragPayload data 0 = data.take payloadSize := by
        unfold fragPayload
        rw [Nat.mul_zero, List.drop_zero]
      have hcomp : fragPayload data ∘ Nat.succ =
          fragPayload (data.drop payloadSize) := by
        funext i
        show fragPayload data (i + 1) = fragPayload (data.drop payloadSize) i
        unfold fragPayload
        rw [List.drop_drop]
        congr 2
        simp only [payloadSize, bleMTU, headerSize]
        omega
      have hlen2 : (data.drop payloadSize).length ≤ payloadSize * T := by
        rw [List.length_drop]
        simp only [payloadSize, bleMTU, headerSize] at h ⊢
        omega
      rw [h0, hcomp, ih (data.drop payloadSize) hlen2]
      exact List.take_append_drop payloadSize data

/-- Once every fragment has been seen, the concatenation loop rebuilds the
original message. -/
theorem assemble_mkSlots (data : List Nat) (seen : List Nat) (T : Nat)
    (hc : ∀ i < T, i ∈ seen) (hlen : data.length ≤ payloadSize * T) :
    assemble T (mkSlots data seen T) = data := by
  unfold assemble
  have h1 : ∀ i ∈ List.range T,
      ((mkSlots data seen T).getD i none).getD [] = fragPayload data i := by
    intro i hi
    have hi2 := List.mem_range.1 hi
    rw [getD_mkSlots data seen T i hi2, if_pos (hc i hi2)]
    rfl
  rw [List.map_congr_left h1]
  exact flatten_fragPayload T data hlen

/-- One-step unfolding of `runAccept`. -/
theorem runAccept_cons (m : RxMap) (now : Nat)
    (pk : Nat × Nat × Nat × List Nat) (rest : List (Nat × Nat × Nat × List Nat)) :
    runAccept m now (pk :: rest) =
      ((runAccept (acceptData m now pk.1 pk.2.1 pk.2.2.1 pk.2.2.2).1 now rest).1,
        (acceptData m now pk.1 pk.2.1 pk.2.2.1 pk.2.2.2).2.toList ++
          (runAccept (acceptData m now pk.1 pk.2.1 pk.2.2.1 pk.2.2.2).1 now rest).2) := by
  obtain ⟨a, b, c, d⟩ := pk
  rfl

/-- Effect of `acceptData` on the partially-reassembled state when a fresh
in-range fragment `j` of the message arrives: the fragment is stored, and
the message is delivered (consuming the buffer) exactly when `j` was the
last missing fragment. -/
theorem acceptData_step (data : List Nat) (sq now T : Nat) (seen : List Nat)
    (j : Nat) (hT : 0 < T) (hjT : j < T) (hjseen : j ∉ seen)
    (hlen : data.length ≤ payloadSize * T) :
    acceptData (seenState data sq now T seen) now sq T j (fragPayload data j) =
      if ∀ i < T, i ∈ j :: seen then ([], some data)
      else (seenState data sq now T (j :: seen), none) := by
  have hval : ¬ (T = 0 ∨ T ≤ j) := by omega
  have hreap : rxReap (seenState data sq now T seen) now =
      seenState data sq now T seen := by
    unfold seenState
    by_cases hs : seen = []
    · rw [if_pos hs]
      rfl
    · rw [if_neg hs]
      have hlt : ¬ (now + twoMinutes < now) := by
        unfold twoMinutes
        omega
      simp [rxReap, List.filter, hlt]
  have hmsg : lookupOrFresh (seenState data sq now T seen) sq T now =
      ⟨T, mkSlots data seen T, now⟩ := by
    unfold lookupOrFresh seenState
    by_cases hs : seen = []
    · rw [if_pos hs, hs]
      have hnone : rxLookup ([] : RxMap) sq = none := rfl
      rw [hnone]
      dsimp only
      rw [mkSlots_nil]
    · rw [if_neg hs]
      have hsome : rxLookup [(sq, (⟨T, mkSlots data seen T, now⟩ : RxMessage))] sq =
          some ⟨T, mkSlots data seen T, now⟩ := by
        simp [rxLookup]
      rw [hsome]
      dsimp only
      rw [if_pos rfl]
  have hget : (mkSlots data seen T).getD j none = none := by
    rw [getD_mkSlots data seen T j hjT, if_neg hjseen]
  have hfill : fillSlot (mkSlots data seen T) j (fragPayload data j) =
      mkSlots data (j :: seen) T := by
    unfold fillSlot
    rw [if_pos hget, set_mkSlots data seen T j hjT]
  unfold acceptData
  rw [if_neg hval]
  dsimp only
  rw [hreap, hmsg]
  dsimp only
  rw [hfill]
  by_cases hc : ∀ i < T, i ∈ j :: seen
  · rw [if_pos hc]
    have hall : allFilled T (mkSlots data (j :: seen) T) = true :=
      (allFilled_mkSlots data (j :: seen) T).2 hc
    rw [if_pos hall]
    have herase : rxErase (seenState data sq now T seen) sq = [] := by
      unfold seenState rxErase
      by_cases hs : seen = []
      · rw [if_pos hs]
        rfl
      · rw [if_neg hs]
        simp [List.filter]
    rw [herase, assemble_mkSlots data (j :: seen) T hc hlen]
  · rw [if_neg hc]
    have hall : ¬ (allFilled T (mkSlots data (j :: seen) T) = true) := by
      intro hq
      exact hc ((allFilled_mkSlots data (j :: seen) T).1 hq)
    rw [if_neg hall]
    have hins : rxInsert (seenState data sq now T seen) sq
        ⟨T, mkSlots data (j :: seen) T, now⟩ =
        seenState data sq now T (j :: seen) := by
      unfold seenState rxInsert
      by_cases hs : seen = []
      · rw [if_pos hs, if_neg (List.cons_ne_nil j seen)]
        simp
      · rw [if_neg hs, if_neg (List.cons_ne_nil j seen)]
        simp [List.any_cons]
    rw [hins]

/-- Core reassembly invariant: starting from the state in which exactly the
fragments in `seen` have arrived, feeding the remaining fragments (those
with indices in `rem`, in any order) delivers exactly the original message
and leaves the reassembly map empty. -/
theorem runAccept_perm_core (data : List Nat) (sq now T : Nat)
    (hT : 0 < T) (hlen : data.length ≤ payloadSize * T) :
    ∀ (l : List (Nat × Nat × Nat × List Nat)) (seen rem : List Nat),
      l.Perm (rem.map (gpkt data sq T)) →
      (seen ++ rem).Perm (List.range T) →
      rem ≠ [] →
      runAccept (seenState data sq now T seen) now l = ([], [data]) := by
  intro l
  induction l with
  | nil =>
      intro seen rem hperm hcov hne
      exfalso
      have h0 : rem.map (gpkt data sq T) = [] := hperm.symm.eq_nil
      exact hne (List.map_eq_nil_iff.1 h0)
  | cons p l2 ih =>
      intro seen rem hperm hcov hne
      have hpmem : p ∈ rem.map (gpkt data sq T) :=
        hperm.mem_iff.1 (List.mem_cons_self p l2)
      obtain ⟨j, hjrem, hpj⟩ := List.mem_map.1 hpmem
      subst hpj
      have hnodup : (seen ++ rem).Nodup :=
        hcov.symm.nodup (List.nodup_range T)
      have hsplit := List.nodup_append.1 hnodup
      have hjT : j < T :=
        List.mem_range.1 (hcov.mem_iff.1 (List.mem_append_right seen hjrem))
      have hjseen : j ∉ seen := fun hmem => hsplit.2.2 hmem hjrem
      have hstep := acceptData_step data sq now T seen j hT hjT hjseen hlen
      have hgp : gpkt data sq T j = (sq, T, j, fragPayload data j) := rfl
      rw [hgp, runAccept_cons]
      dsimp only
      by_cases hrem : rem.erase j = []
      · have hrem_eq : rem.Perm [j] := by
          have h1 := List.perm_cons_erase hjrem
          rw [hrem] at h1
          exact h1
        have hl2 : l2 = [] := by
          have h2 : ((sq, T, j, fragPayload data j) :: l2).Perm
              [gpkt data sq T j] := by
            have h3 := hrem_eq.map (gpkt data sq T)
            exact (hgp ▸ hperm).trans h3
          have h4 := h2.length_eq
          simp only [List.length_cons, List.length_nil] at h4
          exact List.length_eq_zero.1 (by omega)
        have hcover : ∀ i < T, i ∈ j :: seen := by
          intro i hi
          have hmem : i ∈ seen ++ rem := hcov.mem_iff.2 (List.mem_range.2 hi)
          rcases List.mem_append.1 hmem with h | h
          · exact List.mem_cons_of_mem j h
          · have h5 : i ∈ [j] := hrem_eq.mem_iff.1 h
            have h6 : i = j := by simpa using h5
            rw [h6]
            exact List.mem_cons_self j seen
        subst hl2
        rw [hstep, if_pos hcover]
        rfl
      · obtain ⟨k, hk⟩ := List.exists_mem_of_ne_nil _ hrem
        have hk_rem : k ∈ rem := List.mem_of_mem_erase hk
        have hkj : k ≠ j := ((List.Nodup.mem_erase_iff hsplit.2.1).1 hk).1
        have hkseen : k ∉ seen := fun hmem => hsplit.2.2 hmem hk_rem
        have hkT : k < T :=
          List.mem_range.1 (hcov.mem_iff.1 (List.mem_append_right seen hk_rem))
        have hnc : ¬ (∀ i < T, i ∈ j :: seen) := by
          intro hq
          rcases List.mem_cons.1 (hq k hkT) with h | h
          · exact hkj h
          · exact hkseen h
        have hperm2 : l2.Perm ((rem.erase j).map (gpkt data sq T)) := by
          have h1 : (rem.map (gpkt data sq T)).Perm
              (gpkt data sq T j :: (rem.erase j).map (gpkt data sq T)) := by
            have h2 := (List.perm_cons_erase hjrem).map (gpkt data sq T)
            simpa using h2
          exact ((hgp ▸ hperm).trans h1).cons_inv
        have hcov2 : ((j :: seen) ++ rem.erase j).Perm (List.range T) := by
          have h1 : rem.Perm (j :: rem.erase j) := List.perm_cons_erase hjrem
          have h2 : (seen ++ (j :: rem.erase j)).Perm (seen ++ rem) :=
            List.Perm.append_left seen h1.symm
          have h3 : ((j :: seen) ++ rem.erase j).Perm
              (seen ++ (j :: rem.erase j)) := by
            show ((j :: (seen ++ rem.erase j))).Perm (seen ++ (j :: rem.erase j))
            exact List.perm_middle.symm
          exact (h3.trans h2).trans hcov
        have hrec := ih (j :: seen) (rem.erase j) hperm2 hcov2 hrem
        rw [hstep, if_neg hnc]
        dsimp only
        rw [hrec]
        rfl

/-- Claim C1: for every message of 1..=4080 bytes and every sequence number
in 1..=255, feeding the DATA packets produced by `SendMessage` to
`acceptData` in any order delivers exactly the original message to the
`recv` stream (and leaves no reassembly state behind). -/
theorem claim1_fragment_reassembly (data : List Nat) (sq now : Nat)
    (l : List (List Nat)) (h1 : 1 ≤ data.length) (h2 : data.length ≤ 4080)
    (_hs1 : 1 ≤ sq) (_hs2 : sq ≤ 255)
    (hl : l.Perm (buildPackets data sq)) :
    runFeed [] now l = ([], [data]) := by
  have hT : 0 < (data.length + payloadSize - 1) / payloadSize := by
    simp only [payloadSize, bleMTU, headerSize]
    omega
  have hlen : data.length ≤
      payloadSize * ((data.length + payloadSize - 1) / payloadSize) := by
    simp only [payloadSize, bleMTU, headerSize]
    omega
  have hparse : ∀ i, parseData (buildPacket data sq
      ((data.length + payloadSize - 1) / payloadSize) i) =
      gpkt data sq ((data.length + payloadSize - 1) / payloadSize) i := by
    intro i
    rfl
  have hmap : (l.map parseData).Perm
      ((List.range ((data.length + payloadSize - 1) / payloadSize)).map
        (gpkt data sq ((data.length + payloadSize - 1) / payloadSize))) := by
    have h1m := hl.map parseData
    have h2m : (buildPackets data sq).map parseData =
        (List.range ((data.length + payloadSize - 1) / payloadSize)).map
          (gpkt data sq ((data.length + payloadSize - 1) / payloadSize)) := by
      unfold buildPackets
      rw [List.map_map]
      exact List.map_congr_left (fun i _ => hparse i)
    rw [h2m] at h1m
    exact h1m
  have hrng : List.range ((data.length + payloadSize - 1) / payloadSize) ≠ [] := by
    intro hq
    rw [List.range_eq_nil] at hq
    omega
  have hmain := runAccept_perm_core data sq now
    ((data.length + payloadSize - 1) / payloadSize) hT hlen
    (l.map parseData) []
    (List.range ((data.length + payloadSize - 1) / payloadSize))
    hmap (by simp) hrng
  unfold runFeed
  have hstate : seenState data sq now
      ((data.length + payloadSize - 1) / payloadSize) [] = [] := rfl
  rw [hstate] at hmain
  exact hmain

/-- Witness for C1: the two fragments of a 17-byte message, fed in reversed
order, reassemble to the original message. -/
theorem claim1_fragment_reassembly_witness :
    runFeed [] 5 ((buildPackets (List.range 17) 9).reverse) =
      ([], [List.range 17]) :=
  claim1_fragment_reassembly (List.range 17) 9 5
    ((buildPackets (List.range 17) 9).reverse)
    (by decide) (by decide) (by decide) (by decide)
    (List.reverse_perm (buildPackets (List.range 17) 9))
